import Mathlib

/-!
Shallow embedding of the fuel-storage crate (src/lib.rs), a pure interface
crate: a `Mappable` table descriptor, the `StorageInspect` / `StorageMutate`
read and write contracts, the `Storage` conjunction, the `MerkleRootStorage`
extension, and the `StorageRef` / `StorageMut` scoped-view wrappers with
their `StorageAsRef.storage` / `StorageAsMut.storage` accessor helpers.

Rust's `&mut self` methods are modelled by explicit state passing: a
mutating operation takes the store state `S` and returns the new state
alongside its result.  `Result<A, Self::Error>` is modelled by `Except E A`.
The crate contains no algorithm bodies, so the behavioural contract stated
in its doc comments is formalised as `Lawful…` predicates relative to an
abstraction function `interp : S → Key → Option GetValue` (the logical
contents of the table) and a duplication map `dup : SetValue → GetValue`
(the "logical content" of an inserted value, e.g. slice-to-vector).
-/

set_option autoImplicit false

namespace FuelStorage

/-- Embedding of `type MerkleRoot = [u8; 32]` (src/lib.rs line 10): a
fixed-width 32-byte value, one byte (`Fin 256`) per index `Fin 32`. -/
def MerkleRoot : Type := Fin 32 → Fin 256

/-- The byte serialization of a `MerkleRoot`, used to state its fixed width. -/
def MerkleRoot.toBytes (r : MerkleRoot) : List (Fin 256) :=
  (List.finRange 32).map r

/-- Embedding of `trait Mappable` (src/lib.rs lines 13-37): a table
descriptor fixing the key type, the value type accepted on insert
(`SetValue`, possibly unsized in Rust) and the value type returned on
reads (`GetValue : Clone`; in Lean every value is duplicable). -/
structure Mappable where
  Key : Type
  SetValue : Type
  GetValue : Type

/-- Embedding of `trait StorageInspect<Type: Mappable>` (src/lib.rs lines
45-51).  The associated error type of `StorageError` (lines 40-42) is the
parameter `E`.  `get` returns `Cow<GetValue>` in Rust; the borrowed/owned
distinction has no logical content, so it returns the value itself. -/
structure StorageInspect (S E : Type) (T : Mappable) where
  get : S → T.Key → Except E (Option T.GetValue)
  contains_key : S → T.Key → Except E Bool

/-- Embedding of `trait StorageMutate<Type: Mappable>` (src/lib.rs lines
54-70): `insert` and `remove` mutate the store (explicit state passing)
and return the displaced value, if any. -/
structure StorageMutate (S E : Type) (T : Mappable) where
  insert : S → T.Key → T.SetValue → Except E (Option T.GetValue × S)
  remove : S → T.Key → Except E (Option T.GetValue × S)

/-- Embedding of `trait Storage<Type>: StorageMutate<Type> + StorageInspect<Type> {}`
(src/lib.rs line 75): the empty conjunction of the two contracts. -/
structure Storage (S E : Type) (T : Mappable) extends
    StorageMutate S E T, StorageInspect S E T

/-- Embedding of `trait MerkleRootStorage<Key, StorageType>: Storage<StorageType>`
(src/lib.rs lines 80-89): adds `root`, which takes `&mut self` in Rust
(it may finalize pending updates), hence returns a new state here. -/
structure MerkleRootStorage (S E MK : Type) (T : Mappable) extends
    Storage S E T where
  root : S → MK → Except E (MerkleRoot × S)

/-- Embedding of `struct StorageRef<'a, T, Type>(&'a T, PhantomData<Type>)`
(src/lib.rs line 92): the read-only scoped view, holding the borrowed
store and a zero-sized tag (`PhantomData` becomes `Unit`). -/
structure StorageRef (S : Type) (T : Mappable) where
  ref : S
  tag : Unit

/-- Embedding of `struct StorageMut<'a, T, Type>(&'a mut T, PhantomData<Type>)`
(src/lib.rs lines 137-140): the exclusive scoped view. -/
structure StorageMut (S : Type) (T : Mappable) where
  ref : S
  tag : Unit

/-- Embedding of the accessor helper `StorageAsRef::storage` (src/lib.rs
lines 125-134), whose body is `StorageRef(self, Default::default())`:
plain construction, infallible (no `Result` in its type) and performing
no storage operation. -/
def StorageAsRef.storage {S : Type} (T : Mappable) (s : S) : StorageRef S T :=
  ⟨s, ()⟩

/-- Embedding of the accessor helper `StorageAsMut::storage` (src/lib.rs
lines 174-183), whose body is `StorageMut(self, Default::default())`. -/
def StorageAsMut.storage {S : Type} (T : Mappable) (s : S) : StorageMut S T :=
  ⟨s, ()⟩

/-- Modelled from the spec: lib.rs declares `mod impls;` (line 3) but the
file of the `impls` module, which holds the trait implementations for the
scoped views, is not under src/.  Per the spec the read-only scoped view
"forwards every call unchanged to the wrapped reference"; `StorageRef.get`
is that forwarding for `StorageInspect::get`. -/
def StorageRef.get {S E : Type} {T : Mappable} (M : StorageInspect S E T)
    (r : StorageRef S T) (k : T.Key) : Except E (Option T.GetValue) :=
  M.get r.ref k

/-- Modelled from the spec (the missing `impls` module): forwarding of
`StorageInspect::contains_key` through the read-only scoped view. -/
def StorageRef.contains_key {S E : Type} {T : Mappable}
    (M : StorageInspect S E T) (r : StorageRef S T) (k : T.Key) :
    Except E Bool :=
  M.contains_key r.ref k

/-- Modelled from the spec (the missing `impls` module): the exclusive
scoped view exposes the full combined capability; forwarding of `get`. -/
def StorageMut.get {S E : Type} {T : Mappable} (M : Storage S E T)
    (r : StorageMut S T) (k : T.Key) : Except E (Option T.GetValue) :=
  M.get r.ref k

/-- Modelled from the spec (the missing `impls` module): forwarding of
`contains_key` through the exclusive scoped view. -/
def StorageMut.contains_key {S E : Type} {T : Mappable} (M : Storage S E T)
    (r : StorageMut S T) (k : T.Key) : Except E Bool :=
  M.contains_key r.ref k

/-- Modelled from the spec (the missing `impls` module): forwarding of
`StorageMutate::insert` through the exclusive scoped view; the state
effect is exactly the wrapped store's. -/
def StorageMut.insert {S E : Type} {T : Mappable} (M : Storage S E T)
    (r : StorageMut S T) (k : T.Key) (v : T.SetValue) :
    Except E (Option T.GetValue × S) :=
  M.insert r.ref k v

/-- Modelled from the spec (the missing `impls` module): forwarding of
`StorageMutate::remove` through the exclusive scoped view. -/
def StorageMut.remove {S E : Type} {T : Mappable} (M : Storage S E T)
    (r : StorageMut S T) (k : T.Key) : Except E (Option T.GetValue × S) :=
  M.remove r.ref k

/-- The behavioural contract of `StorageInspect` as stated by its doc
comments (src/lib.rs lines 46, 49): relative to the logical contents
`interp`, a successful `get` returns the mapped value and a successful
`contains_key` reports whether a mapping exists.  A failing call
propagates the store's own error and is unconstrained. -/
structure LawfulStorageInspect {S E : Type} {T : Mappable}
    (M : StorageInspect S E T) (interp : S → T.Key → Option T.GetValue) :
    Prop where
  get_ok : ∀ s k r, M.get s k = Except.ok r → r = interp s k
  contains_key_ok : ∀ s k b, M.contains_key s k = Except.ok b →
    b = (interp s k).isSome

/-- Modelled from the spec: the `contains_key` doc comment in src
(lib.rs lines 49-50) fixes only the boolean on success, while spec
section 4.2 fixes the full semantics missing there: `contains_key` is
"semantically equivalent to `get(key).map(|v| v.is_some())`".  The two
fields transcribe that sentence outcome by outcome: when `get` succeeds,
`contains_key` succeeds with `isSome` of the fetched value; when `get`
fails, `contains_key` fails with the same error. -/
structure ContainsKeyAgreesWithGet {S E : Type} {T : Mappable}
    (M : StorageInspect S E T) : Prop where
  ok_agree : ∀ s k r, M.get s k = Except.ok r →
    M.contains_key s k = Except.ok r.isSome
  err_agree : ∀ s k e, M.get s k = Except.error e →
    M.contains_key s k = Except.error e

/-- The behavioural contract of `StorageMutate` as stated by its doc
comments (src/lib.rs lines 55-58, 66-68): a successful `insert` returns
the previously mapped value (`none` when the key was new) and afterwards
the key maps to the written value (`dup v`, its logical content as a
`GetValue`), all other keys untouched; a successful `remove` returns the
removed value and afterwards the key is unmapped, all other keys
untouched. -/
structure LawfulStorageMutate {S E : Type} {T : Mappable}
    (M : StorageMutate S E T) (interp : S → T.Key → Option T.GetValue)
    (dup : T.SetValue → T.GetValue) : Prop where
  insert_ok : ∀ s k v p s', M.insert s k v = Except.ok (p, s') →
    p = interp s k ∧ interp s' k = some (dup v) ∧
      ∀ k', k' ≠ k → interp s' k' = interp s k'
  remove_ok : ∀ s k p s', M.remove s k = Except.ok (p, s') →
    p = interp s k ∧ interp s' k = none ∧
      ∀ k', k' ≠ k → interp s' k' = interp s k'

/-- The combined contract: both halves for the same descriptor and the
same abstraction. -/
def LawfulStorage {S E : Type} {T : Mappable} (M : Storage S E T)
    (interp : S → T.Key → Option T.GetValue)
    (dup : T.SetValue → T.GetValue) : Prop :=
  LawfulStorageInspect M.toStorageInspect interp ∧
    LawfulStorageMutate M.toStorageMutate interp dup

/-- The behavioural contract of `MerkleRootStorage::root` (src/lib.rs
lines 80-89 and spec section 4.6): the returned root deterministically
reflects the table's current logical contents for the grouping key, and
the mutable access `root` takes (to finalize pending updates) does not
change the logical contents. -/
structure LawfulMerkleRootStorage {S E MK : Type} {T : Mappable}
    (M : MerkleRootStorage S E MK T)
    (interp : S → T.Key → Option T.GetValue) : Prop where
  root_preserves : ∀ s k r s', M.root s k = Except.ok (r, s') →
    ∀ k', interp s' k' = interp s k'
  root_det : ∀ s t k r r' s' t', (∀ k', interp s k' = interp t k') →
    M.root s k = Except.ok (r, s') → M.root t k = Except.ok (r', t') →
    r = r'

/-- The table descriptor of the canonical in-memory model: `SetValue` and
`GetValue` coincide (the common case noted in the `Mappable` doc
comment). -/
@[reducible] def memTable (K V : Type) : Mappable :=
  ⟨K, V, V⟩

/-- Lookup in an association list: the value of the first entry whose key
matches, the logical contents of the in-memory model. -/
def assocGet {K V : Type} [DecidableEq K] :
    List (K × V) → K → Option V
  | [], _ => none
  | p :: rest, k => if p.1 = k then some p.2 else assocGet rest k

/-- Erase every entry of a key from an association list. -/
def assocErase {K V : Type} [DecidableEq K] :
    List (K × V) → K → List (K × V)
  | [], _ => []
  | p :: rest, k =>
    if p.1 = k then assocErase rest k else p :: assocErase rest k

/-- The canonical in-memory store: the "flat in-memory structure" the spec
names as an example implementor, realizing the documented contract with
no failures (`E := Unit` is never raised).  Used to witness that the
contracts are satisfiable. -/
def memStorage (K V : Type) [DecidableEq K] :
    Storage (List (K × V)) Unit (memTable K V) where
  toStorageInspect :=
    { get := fun s k => Except.ok (assocGet s k)
      contains_key := fun s k => Except.ok (assocGet s k).isSome }
  toStorageMutate :=
    { insert := fun s k v => Except.ok (assocGet s k, (k, v) :: assocErase s k)
      remove := fun s k => Except.ok (assocGet s k, assocErase s k) }

/-- The constant all-zero root, the in-memory model's empty-tree value. -/
def zeroRoot : MerkleRoot := fun _ => 0

/-- The canonical in-memory merkleized store: the root algorithm is "an
arbitrary choice of the implementor" (src/lib.rs line 87); this model
returns the stable constant `zeroRoot` and leaves the store untouched. -/
def memMerkle (K V MK : Type) [DecidableEq K] :
    MerkleRootStorage (List (K × V)) Unit MK (memTable K V) :=
  { memStorage K V with root := fun s _ => Except.ok (zeroRoot, s) }

/-- A store whose every operation fails with the fixed error `e`: a legal
implementor (the contracts constrain only successful calls), used to
exhibit that the scoped views propagate errors unchanged. -/
def failStorage {E : Type} (e : E) (T : Mappable) : Storage Unit E T where
  toStorageInspect :=
    { get := fun _ _ => Except.error e
      contains_key := fun _ _ => Except.error e }
  toStorageMutate :=
    { insert := fun _ _ _ => Except.error e
      remove := fun _ _ => Except.error e }

theorem assocGet_erase {K V : Type} [DecidableEq K]
    (s : List (K × V)) (k k' : K) :
    assocGet (assocErase s k) k' = if k' = k then none else assocGet s k' := by
  induction s with
  | nil => simp [assocErase, assocGet]
  | cons p rest ih =>
    by_cases h1 : p.1 = k
    · by_cases h2 : k' = k
      · subst h2
        simp [assocErase, assocGet, h1, ih]
      · have h4 : ¬ k = k' := fun h => h2 h.symm
        simp [assocErase, assocGet, h1, h2, h4, ih]
    · by_cases h3 : p.1 = k'
      · have h2 : ¬ k' = k := fun h => h1 (h ▸ h3)
        simp [assocErase, assocGet, h1, h2, h3]
      · simp [assocErase, assocGet, h1, h3, ih]

theorem memStorage_lawfulInspect (K V : Type) [DecidableEq K] :
    LawfulStorageInspect (memStorage K V).toStorageInspect assocGet := by
  constructor
  · intro s k r h
    simpa [memStorage] using h.symm
  · intro s k b h
    simpa [memStorage] using h.symm

theorem memStorage_containsAgrees (K V : Type) [DecidableEq K] :
    ContainsKeyAgreesWithGet (memStorage K V).toStorageInspect := by
  constructor
  · intro s k r h
    have hr : assocGet s k = r := by simpa [memStorage] using h
    simp [memStorage, hr]
  · intro s k e h
    simp [memStorage] at h

theorem memStorage_lawfulMutate (K V : Type) [DecidableEq K] :
    LawfulStorageMutate (memStorage K V).toStorageMutate assocGet id := by
  constructor
  · intro s k v p s' h
    simp only [memStorage, Except.ok.injEq, Prod.mk.injEq] at h
    obtain ⟨hp, hs⟩ := h
    refine ⟨hp.symm, ?_, ?_⟩
    · simp [← hs, assocGet]
    · intro k' hk'
      have hne : ¬ k = k' := fun h => hk' h.symm
      simp [← hs, assocGet, hne, assocGet_erase, hk']
  · intro s k p s' h
    simp only [memStorage, Except.ok.injEq, Prod.mk.injEq] at h
    obtain ⟨hp, hs⟩ := h
    refine ⟨hp.symm, ?_, ?_⟩
    · simp [← hs, assocGet_erase]
    · intro k' hk'
      simp [← hs, assocGet_erase, hk']

theorem memStorage_lawful (K V : Type) [DecidableEq K] :
    LawfulStorage (memStorage K V) assocGet id :=
  ⟨memStorage_lawfulInspect K V, memStorage_lawfulMutate K V⟩

theorem memMerkle_lawful (K V MK : Type) [DecidableEq K] :
    LawfulMerkleRootStorage (memMerkle K V MK) assocGet := by
  constructor
  · intro s k r s' h k'
    simp only [memMerkle, Except.ok.injEq, Prod.mk.injEq] at h
    rw [h.2]
  · intro s t k r r' s' t' _ h h'
    simp only [memMerkle, Except.ok.injEq, Prod.mk.injEq] at h h'
    rw [← h.1, ← h'.1]

/-- Claim C1: for every store satisfying the `StorageMutate` contract,
`insert` returns the previously mapped value (`some` exactly when the key
was already mapped, `none` when it was new); in particular after
`insert(k, v1)`, a second `insert(k, v2)` returns `some (dup v1)` and a
subsequent successful `get k` returns `some (dup v2)`. -/
theorem insert_displaced_value {S E : Type} {T : Mappable}
    (M : Storage S E T) (interp : S → T.Key → Option T.GetValue)
    (dup : T.SetValue → T.GetValue) (L : LawfulStorage M interp dup)
    (s s1 s2 : S) (k : T.Key) (v1 v2 : T.SetValue)
    (p1 p2 r : Option T.GetValue)
    (h1 : M.toStorageMutate.insert s k v1 = Except.ok (p1, s1))
    (h2 : M.toStorageMutate.insert s1 k v2 = Except.ok (p2, s2))
    (h3 : M.toStorageInspect.get s2 k = Except.ok r) :
    p1 = interp s k ∧ p2 = some (dup v1) ∧ r = some (dup v2) := by
  obtain ⟨LI, LM⟩ := L
  obtain ⟨hp1, hk1, -⟩ := LM.insert_ok _ _ _ _ _ h1
  obtain ⟨hp2, hk2, -⟩ := LM.insert_ok _ _ _ _ _ h2
  exact ⟨hp1, hp2.trans hk1, (LI.get_ok _ _ _ h3).trans hk2⟩

theorem insert_displaced_value_witness :
    (none : Option Nat) = assocGet ([] : List (Nat × Nat)) 0 ∧
      some 1 = some (id 1) ∧ some 2 = some (id 2) :=
  insert_displaced_value (memStorage Nat Nat) assocGet id
    (memStorage_lawful Nat Nat) [] [(0, 1)] [(0, 2)] 0 1 2
    none (some 1) (some 2) rfl rfl rfl

/-- Claim C2: for every store satisfying the contract, after a successful
`insert(k, v)`, `remove k` returns `some (dup v)` (the logical content of
`v`), and a subsequent `get k` returns `none` while `contains_key k`
returns `false`. -/
theorem insert_then_remove {S E : Type} {T : Mappable}
    (M : Storage S E T) (interp : S → T.Key → Option T.GetValue)
    (dup : T.SetValue → T.GetValue) (L : LawfulStorage M interp dup)
    (s s1 s2 : S) (k : T.Key) (v : T.SetValue)
    (p q r : Option T.GetValue) (b : Bool)
    (h1 : M.toStorageMutate.insert s k v = Except.ok (p, s1))
    (h2 : M.toStorageMutate.remove s1 k = Except.ok (q, s2))
    (h3 : M.toStorageInspect.get s2 k = Except.ok r)
    (h4 : M.toStorageInspect.contains_key s2 k = Except.ok b) :
    q = some (dup v) ∧ r = none ∧ b = false := by
  obtain ⟨LI, LM⟩ := L
  obtain ⟨-, hk1, -⟩ := LM.insert_ok _ _ _ _ _ h1
  obtain ⟨hq, hk2, -⟩ := LM.remove_ok _ _ _ _ h2
  refine ⟨hq.trans hk1, (LI.get_ok _ _ _ h3).trans hk2, ?_⟩
  rw [LI.contains_key_ok _ _ _ h4, hk2]
  rfl

theorem insert_then_remove_witness :
    some 5 = some (id 5) ∧ (none : Option Nat) = none ∧ false = false :=
  insert_then_remove (memStorage Nat Nat) assocGet id
    (memStorage_lawful Nat Nat) [] [(0, 5)] [] 0 5
    none (some 5) none false rfl rfl rfl rfl

/-- Claim C3: for every store satisfying the contract and a key with no
mapping (never inserted, or removed), `contains_key` returns `false` and
`get` returns `none`; after `insert(k, v)`, `get k` returns
`some (dup v)` and `contains_key k` returns `true`. -/
theorem absent_then_insert {S E : Type} {T : Mappable}
    (M : Storage S E T) (interp : S → T.Key → Option T.GetValue)
    (dup : T.SetValue → T.GetValue) (L : LawfulStorage M interp dup)
    (s s1 : S) (k : T.Key) (v : T.SetValue)
    (p r0 r1 : Option T.GetValue) (b0 b1 : Bool)
    (habs : interp s k = none)
    (hg0 : M.toStorageInspect.get s k = Except.ok r0)
    (hc0 : M.toStorageInspect.contains_key s k = Except.ok b0)
    (h1 : M.toStorageMutate.insert s k v = Except.ok (p, s1))
    (hg1 : M.toStorageInspect.get s1 k = Except.ok r1)
    (hc1 : M.toStorageInspect.contains_key s1 k = Except.ok b1) :
    b0 = false ∧ r0 = none ∧ r1 = some (dup v) ∧ b1 = true := by
  obtain ⟨LI, LM⟩ := L
  obtain ⟨-, hk1, -⟩ := LM.insert_ok _ _ _ _ _ h1
  refine ⟨?_, (LI.get_ok _ _ _ hg0).trans habs,
    (LI.get_ok _ _ _ hg1).trans hk1, ?_⟩
  · rw [LI.contains_key_ok _ _ _ hc0, habs, Option.isSome_none]
  · rw [LI.contains_key_ok _ _ _ hc1, hk1, Option.isSome_some]

theorem absent_then_insert_witness :
    false = false ∧ (none : Option Nat) = none ∧
      some 7 = some (id 7) ∧ true = true :=
  absent_then_insert (memStorage Nat Nat) assocGet id
    (memStorage_lawful Nat Nat) [] [(0, 7)] 0 7
    none none (some 7) false true rfl rfl rfl rfl rfl rfl

/-- Claim C4: operations invoked through a scoped view obtained from the
accessor helpers (`StorageAsRef.storage` / `StorageAsMut.storage`) return
results identical to calling the contract methods directly on the store,
with the identical state effect (`insert`/`remove` return the same
updated state). -/
theorem scoped_view_equiv {S E : Type} {T : Mappable}
    (M : Storage S E T) (s : S) (k : T.Key) (v : T.SetValue) :
    StorageRef.get M.toStorageInspect (StorageAsRef.storage T s) k =
        M.toStorageInspect.get s k ∧
      StorageRef.contains_key M.toStorageInspect (StorageAsRef.storage T s) k =
        M.toStorageInspect.contains_key s k ∧
      StorageMut.get M (StorageAsMut.storage T s) k =
        M.toStorageInspect.get s k ∧
      StorageMut.contains_key M (StorageAsMut.storage T s) k =
        M.toStorageInspect.contains_key s k ∧
      StorageMut.insert M (StorageAsMut.storage T s) k v =
        M.toStorageMutate.insert s k v ∧
      StorageMut.remove M (StorageAsMut.storage T s) k =
        M.toStorageMutate.remove s k :=
  ⟨rfl, rfl, rfl, rfl, rfl, rfl⟩

/-- Claim C5: for every store satisfying the contract of section 4.2,
`contains_key k` equals `Except.map Option.isSome (get k)` outright: the
two calls agree on the Ok/Err outcome (the same error on failure) and on
the boolean (`isSome` of the fetched value on success). -/
theorem contains_key_iff_get {S E : Type} {T : Mappable}
    (M : StorageInspect S E T) (L : ContainsKeyAgreesWithGet M)
    (s : S) (k : T.Key) :
    M.contains_key s k = Except.map Option.isSome (M.get s k) := by
  cases h : M.get s k with
  | ok r =>
    rw [L.ok_agree _ _ _ h]
    rfl
  | error e =>
    rw [L.err_agree _ _ _ h]
    rfl

theorem contains_key_iff_get_witness :
    (memStorage Nat Nat).toStorageInspect.contains_key [(1, 2)] 1 =
      Except.map Option.isSome
        ((memStorage Nat Nat).toStorageInspect.get [(1, 2)] 1) :=
  contains_key_iff_get (memStorage Nat Nat).toStorageInspect
    (memStorage_containsAgrees Nat Nat) [(1, 2)] 1

/-- Claim C6: for every store satisfying the `StorageMutate` contract,
removing an absent key returns `none` and leaves the table's logical
contents entirely unchanged. -/
theorem remove_absent_noop {S E : Type} {T : Mappable}
    (M : StorageMutate S E T) (interp : S → T.Key → Option T.GetValue)
    (dup : T.SetValue → T.GetValue) (L : LawfulStorageMutate M interp dup)
    (s s' : S) (k : T.Key) (q : Option T.GetValue)
    (habs : interp s k = none)
    (h : M.remove s k = Except.ok (q, s')) :
    q = none ∧ interp s' = interp s := by
  obtain ⟨hq, hk, ho⟩ := L.remove_ok _ _ _ _ h
  refine ⟨hq.trans habs, funext fun k' => ?_⟩
  by_cases hk' : k' = k
  · subst hk'
    rw [hk, habs]
  · exact ho k' hk'

theorem remove_absent_noop_witness :
    (none : Option Nat) = none ∧
      assocGet (assocErase [(1, 9)] 0) = assocGet [(1, 9)] :=
  remove_absent_noop (memStorage Nat Nat).toStorageMutate assocGet id
    (memStorage_lawfulMutate Nat Nat) [(1, 9)] (assocErase [(1, 9)] 0) 0
    none rfl rfl

/-- Claim C7: absence is reported as `Except.ok none` (and `contains_key`
as `Except.ok false`), never through the error channel; and the core's
only executable code, the scoped-view forwarding, synthesizes no error:
when the underlying store fails with `e`, the view returns exactly
`Except.error e` for `get`, `contains_key`, `insert` and `remove`. -/
theorem absence_is_ok_none {S E S2 E2 : Type} {T T2 : Mappable}
    (M : StorageInspect S E T) (interp : S → T.Key → Option T.GetValue)
    (L : LawfulStorageInspect M interp)
    (s : S) (k : T.Key) (r : Option T.GetValue) (b : Bool)
    (habs : interp s k = none)
    (hg : M.get s k = Except.ok r)
    (hc : M.contains_key s k = Except.ok b)
    (M2 : Storage S2 E2 T2) (w : StorageRef S2 T2) (m : StorageMut S2 T2)
    (k2 : T2.Key) (v2 : T2.SetValue) (e : E2)
    (heg : M2.toStorageInspect.get w.ref k2 = Except.error e)
    (hec : M2.toStorageInspect.contains_key w.ref k2 = Except.error e)
    (hei : M2.toStorageMutate.insert m.ref k2 v2 = Except.error e)
    (her : M2.toStorageMutate.remove m.ref k2 = Except.error e) :
    r = none ∧ b = false ∧
      StorageRef.get M2.toStorageInspect w k2 = Except.error e ∧
      StorageRef.contains_key M2.toStorageInspect w k2 = Except.error e ∧
      StorageMut.insert M2 m k2 v2 = Except.error e ∧
      StorageMut.remove M2 m k2 = Except.error e := by
  refine ⟨(L.get_ok _ _ _ hg).trans habs, ?_, heg, hec, hei, her⟩
  rw [L.contains_key_ok _ _ _ hc, habs, Option.isSome_none]

theorem absence_is_ok_none_witness :
    (none : Option Nat) = none ∧ false = false ∧
      StorageRef.get (failStorage () (memTable Nat Nat)).toStorageInspect
          ⟨(), ()⟩ 0 = Except.error () ∧
      StorageRef.contains_key
          (failStorage () (memTable Nat Nat)).toStorageInspect ⟨(), ()⟩ 0 =
        Except.error () ∧
      StorageMut.insert (failStorage () (memTable Nat Nat)) ⟨(), ()⟩ 0 3 =
        Except.error () ∧
      StorageMut.remove (failStorage () (memTable Nat Nat)) ⟨(), ()⟩ 0 =
        Except.error () :=
  absence_is_ok_none (memStorage Nat Nat).toStorageInspect assocGet
    (memStorage_lawfulInspect Nat Nat) [] 0 none false rfl rfl rfl
    (failStorage () (memTable Nat Nat)) ⟨(), ()⟩ ⟨(), ()⟩ 0 3 ()
    rfl rfl rfl rfl

/-- Claim C8: a merkle root is a fixed-width 32-byte value, and for a
store satisfying the `MerkleRootStorage` contract two successive `root`
calls with the same grouping key and no intervening mutation return equal
roots. -/
theorem merkle_root_deterministic {S E MK : Type} {T : Mappable}
    (M : MerkleRootStorage S E MK T)
    (interp : S → T.Key → Option T.GetValue)
    (L : LawfulMerkleRootStorage M interp)
    (s s1 s2 : S) (k : MK) (r1 r2 : MerkleRoot)
    (h1 : M.root s k = Except.ok (r1, s1))
    (h2 : M.root s1 k = Except.ok (r2, s2)) :
    r1 = r2 ∧ (MerkleRoot.toBytes r1).length = 32 := by
  have hp := L.root_preserves _ _ _ _ h1
  refine ⟨(L.root_det s1 s k r2 r1 s2 s1 hp h2 h1).symm, ?_⟩
  simp [MerkleRoot.toBytes]

theorem merkle_root_deterministic_witness :
    zeroRoot = zeroRoot ∧ (MerkleRoot.toBytes zeroRoot).length = 32 :=
  merkle_root_deterministic (memMerkle Nat Nat Nat) assocGet
    (memMerkle_lawful Nat Nat Nat) [] [] [] 0 zeroRoot zeroRoot rfl rfl

/-- Claim C9: `Storage` is a pure conjunction of the read and write
contracts: pairing a `StorageMutate` with a `StorageInspect` is a
bijection onto `Storage`, so `Storage` adds no operations or data of its
own and is inhabited exactly when both halves are. -/
theorem storage_pure_conjunction (S E : Type) (T : Mappable) :
    Function.Bijective
      (fun p : StorageMutate S E T × StorageInspect S E T =>
        Storage.mk p.1 p.2) := by
  constructor
  · intro a b h
    cases a
    cases b
    simpa using h
  · intro st
    exact ⟨⟨st.toStorageMutate, st.toStorageInspect⟩, rfl⟩

/-- Claim C10: constructing a scoped view is infallible and effect-free:
the accessor helpers return exactly the wrapper holding the receiver and
the zero-sized tag (their plain, non-`Except` type means no error is
possible), and reading through the fresh view observes the receiver's
unchanged state. -/
theorem storage_accessor_pure {S E : Type} (T : Mappable)
    (M : Storage S E T) (s : S) (k : T.Key) :
    StorageAsRef.storage T s = StorageRef.mk s () ∧
      (StorageAsRef.storage T s).ref = s ∧
      StorageAsMut.storage T s = StorageMut.mk s () ∧
      (StorageAsMut.storage T s).ref = s ∧
      M.toStorageInspect.get (StorageAsRef.storage T s).ref k =
        M.toStorageInspect.get s k :=
  ⟨rfl, rfl, rfl, rfl, rfl⟩

end FuelStorage
